import Mathlib

/-!
# chat-cli: the interactive session loop of `main.go`

A shallow embedding of the function `chat` of `src/main.go` and of the few library
functions it calls, followed by theorems about the transcript, the command dispatch,
the paste mode, the metrics and the model selection.

Modelling conventions.

* Go strings are Lean `String`s (sequences of Unicode code points; the inputs considered
  are valid UTF-8).
* `bufio.Scanner` over standard input with the default line splitter is the list of the
  lines it has still to deliver. `Scan()` followed by `Text()` yields the next line, or the
  empty string once the input is exhausted (`Scan` returns false and leaves an empty token).
* The remote completion service is an oracle `client : Nat → Except String ChatCompletionStream`
  giving the outcome of the k-th call of `CreateChatCompletionStream` (k counted from 0):
  an error, or a stream. A stream is the finite list of responses that `Recv` delivers
  with a nil error, followed by the error that `Recv` returns from then on.
* Console output and the other effects are recorded as a list of `Event`s, oldest first.
* Wall-clock time and the floating point throughput are not modelled.
* Indexing an empty slice is a run-time panic in Go; the model makes it an explicit outcome.
-/

namespace ChatCli

/-! ## Library functions used by `chat` -/

/-- Go `unicode.IsSpace`: the code points with the Unicode White_Space property. -/
def isSpace (c : Char) : Bool :=
  c = '\t' || c = '\n' || c.val = 0x0B || c.val = 0x0C || c = '\r' || c = ' ' ||
  c.val = 0x85 || c.val = 0xA0 || c.val = 0x1680 ||
  (0x2000 ≤ c.val && c.val ≤ 0x200A) ||
  c.val = 0x2028 || c.val = 0x2029 || c.val = 0x202F || c.val = 0x205F || c.val = 0x3000

/-- Go `strings.TrimSpace`: the string without its leading and trailing white space. -/
def TrimSpace (s : String) : String :=
  ⟨((s.data.dropWhile isSpace).reverse.dropWhile isSpace).reverse⟩

/-- Go `strings.Contains`: `substr` occurs somewhere in `s`. -/
def Contains (s substr : String) : Bool :=
  s.data.tails.any (fun t => substr.data.isPrefixOf t)

/-- Pieces of a character list between the occurrences of the separator `sep`. -/
def splitChars (sep : Char) : List Char → List (List Char)
  | [] => [[]]
  | c :: cs =>
    if c = sep then [] :: splitChars sep cs
    else
      match splitChars sep cs with
      | [] => [[c]]
      | p :: ps => (c :: p) :: ps

/-- Go `strings.Split` for a one-character separator (the program only splits at `" "`):
the substrings between the separators, one more than there are separators. -/
def Split (s : String) (sep : Char) : List String :=
  (splitChars sep s.data).map String.mk

/-- Go `Scan()` then `Text()` on a scanner with the lines `scanner` left: the next line,
or the empty string when none is left. -/
def scanText (scanner : List String) : String :=
  scanner.head?.getD ""

/-! ## Data model -/

/-- The message type of the transcript, `openai.ChatCompletionMessage`, with the two
fields the program sets. -/
structure ChatCompletionMessage where
  Role : String
  Content : String
  deriving DecidableEq, Repr

/-- The delta of a streamed choice. -/
structure ChatCompletionStreamChoiceDelta where
  Content : String
  deriving DecidableEq, Repr

/-- One choice of a streamed response. -/
structure ChatCompletionStreamChoice where
  Delta : ChatCompletionStreamChoiceDelta
  deriving DecidableEq, Repr

/-- A response delivered by `stream.Recv()`; `Choices` is a slice and may be empty. -/
structure ChatCompletionStreamResponse where
  Choices : List ChatCompletionStreamChoice
  deriving DecidableEq, Repr

/-- The error values `stream.Recv()` can return: the sentinel `io.EOF`, which signals the
normal end of the stream, or any other error, given by its message. -/
inductive RecvError where
  | EOF
  | other (msg : String)
  deriving DecidableEq, Repr

/-- The method `Error()` of a receive error; the message of `io.EOF` is `EOF`. -/
def RecvError.Error : RecvError → String
  | .EOF => "EOF"
  | .other msg => msg

/-- A completion stream: the responses `Recv` still delivers, then the error it ends with. -/
structure ChatCompletionStream where
  chunks : List ChatCompletionStreamResponse
  err : RecvError
  deriving DecidableEq, Repr

/-- The effects of the session loop that an observer can see. -/
inductive Event where
  | userPrompt
  | clearScreen
  | pastePrompt
  | createStream (model : String) (messages : List ChatCompletionMessage)
  | errorCreatingStream (msg : String)
  | assistantPrompt
  | fragment (content : String)
  | errorReceiving (msg : String)
  | closeStream
  | newline
  | metrics (inputTokens outputTokens totalTokens : Nat)
  deriving DecidableEq, Repr

/-- The variables of `chat` that live across iterations of the session loop, with the
number of remote calls made and the effects so far. -/
structure State where
  messages : List ChatCompletionMessage
  scanner : List String
  calls : Nat
  out : List Event
  deriving DecidableEq, Repr

/-- How an iteration of the session loop ends: `continue` or the end of the body
(`running`), `break` (`terminated`), or a run-time panic (`panicked`). -/
inductive Outcome where
  | running (s : State)
  | terminated (s : State)
  | panicked (s : State)
  deriving DecidableEq, Repr

/-- The state an outcome carries. -/
def Outcome.state : Outcome → State
  | .running s => s
  | .terminated s => s
  | .panicked s => s

/-- The iteration ended in a run-time panic. -/
def Outcome.isPanicked : Outcome → Bool
  | .panicked _ => true
  | _ => false

/-- The session configuration: the active model and the verbose switch. -/
structure Config where
  selectedModel : String
  verbose : Bool
  deriving DecidableEq, Repr

/-! ## The program -/

/-- The map `validModels` of short names to model identifiers. -/
def validModels : List (String × String) :=
  [("llama-instant", "llama-3.1-8b-instant"),
   ("llama-70b", "llama3-70b-8192"),
   ("mixtral", "mixtral-8x7b-32768")]

/-- Go map indexing `validModels[key]`: the value, or the empty string for a missing key. -/
def validModelsAt (key : String) : String :=
  (validModels.lookup key).getD ""

/-- The model selection of `chat` (lines 96-102); `modelEnv` is the value of
`os.Getenv("GROQ_MODEL")`, empty when the variable is unset. -/
def selectedModel (modelEnv : String) : String :=
  let selected := validModelsAt modelEnv
  if selected = "" then validModelsAt "llama-instant" else selected

/-- The seed message of the transcript (lines 132-137). -/
def seed : ChatCompletionMessage :=
  { Role := "system", Content := "Provide helpful and concise responses" }

/-- The state on entry to the session loop. -/
def initState (stdin : List String) : State :=
  { messages := [seed], scanner := stdin, calls := 0, out := [Event.clearScreen] }

/-- The paste loop (lines 166-172): reads lines into the builder until a line `done`
or the end of the input; returns the builder and the lines left. -/
def pasteLoop : List String → String → String × List String
  | [], builder => (builder, [])
  | line :: rest, builder =>
    if line = "done" then (builder, rest)
    else pasteLoop rest (builder ++ (line ++ "\n"))

/-- How the receive loop ends: normally with the accumulated response, or in a panic. -/
inductive RecvOutcome where
  | done (fullResponse : String) (out : List Event)
  | panic (out : List Event)
  deriving DecidableEq, Repr

/-- The receive loop (lines 214-234) on a stream that still delivers `chunks` and then
fails with `err`. -/
def recvLoop (err : RecvError) :
    List ChatCompletionStreamResponse → String → List Event → RecvOutcome
  | [], fullResponse, out =>
    if Contains err.Error "EOF" then .done fullResponse out
    else .done fullResponse (out ++ [Event.errorReceiving err.Error])
  | response :: rest, fullResponse, out =>
    match response.Choices with
    | [] => .panic out
    | choice :: _ =>
      let content := choice.Delta.Content
      recvLoop err rest (fullResponse ++ content) (out ++ [Event.fragment content])

/-- The metrics block (lines 251-267), without the two time-dependent lines. -/
def metricsEvents (verbose : Bool) (text fullResponse : String) : List Event :=
  if verbose then
    let inputTokens := (Split text ' ').length
    let outputTokens := (Split fullResponse ' ').length
    let totalTokens := inputTokens + outputTokens
    [Event.metrics inputTokens outputTokens totalTokens]
  else []

/-- The exchange (lines 182-267) for the effective text `text`, entered with the lines
`scanner` left and the effects `out`. -/
def exchange (cfg : Config) (client : Nat → Except String ChatCompletionStream)
    (s : State) (scanner : List String) (out : List Event) (text : String) : Outcome :=
  let messages := s.messages ++ [{ Role := "user", Content := text }]
  let out := out ++ [Event.createStream cfg.selectedModel messages]
  match client s.calls with
  | .error e =>
    .running { messages := messages, scanner := scanner, calls := s.calls + 1,
               out := out ++ [Event.errorCreatingStream e] }
  | .ok stream =>
    match recvLoop stream.err stream.chunks "" (out ++ [Event.assistantPrompt]) with
    | .panic out =>
      .panicked { messages := messages, scanner := scanner, calls := s.calls + 1, out := out }
    | .done fullResponse out =>
      let out := out ++ [Event.closeStream, Event.newline]
      let messages := messages ++ [{ Role := "assistant", Content := fullResponse }]
      .running { messages := messages, scanner := scanner, calls := s.calls + 1,
                 out := out ++ metricsEvents cfg.verbose text fullResponse }

/-- The effective text of an iteration whose prompt read `text` with `rest` left
(lines 159-175), the lines left after it, and whether paste mode was entered. -/
def resolve (text : String) (rest : List String) : String × List String × Bool :=
  if text = "paste" then
    let r := pasteLoop rest ""
    (TrimSpace r.1, r.2, true)
  else (text, rest, false)

/-- One iteration of the session loop (lines 140-268). -/
def iteration (cfg : Config) (client : Nat → Except String ChatCompletionStream)
    (s : State) : Outcome :=
  let out := s.out ++ [Event.userPrompt]
  let text := scanText s.scanner
  let rest := s.scanner.tail
  if text = "exit" then
    .terminated { s with scanner := rest, out := out }
  else if text = "clear" then
    .running { s with scanner := rest, out := out ++ [Event.clearScreen] }
  else
    let r := resolve text rest
    let out := if r.2.2 then out ++ [Event.pastePrompt] else out
    if r.1 = "" then
      .running { s with scanner := r.2.1, out := out }
    else
      exchange cfg client s r.2.1 out r.1

/-- The session loop run for at most `n` iterations. -/
def run (cfg : Config) (client : Nat → Except String ChatCompletionStream) :
    Nat → State → Outcome
  | 0, s => .running s
  | n + 1, s =>
    match iteration cfg client s with
    | .running s' => run cfg client n s'
    | o => o

/-! ## Definitions that follow the wording of the specification -/

/-- Number of white-space delimited words of a character list; `inWord` tells whether the
previous character belongs to a word. -/
def countWords : Bool → List Char → Nat
  | _, [] => 0
  | inWord, c :: cs =>
    if isSpace c then countWords false cs
    else (if inWord then 0 else 1) + countWords true cs

/-- Number of white-space delimited words of a text, as the specification counts tokens. -/
def wordCount (s : String) : Nat :=
  countWords false s.data

/-- The effective text of paste mode in the words of the specification: the lines before
the first `done`, joined with newlines, then trimmed. -/
def pasteSpec (lines : List String) : String :=
  TrimSpace ("\n".intercalate (lines.takeWhile (fun l => l ≠ "done")))

/-- The fragments a stream delivers: the delta content of the first choice of each response. -/
def fragmentsOf (chunks : List ChatCompletionStreamResponse) : List String :=
  chunks.filterMap (fun r => r.Choices.head?.map (fun c => c.Delta.Content))

/-- Every response of the list carries at least one choice. -/
def WellFormed (chunks : List ChatCompletionStreamResponse) : Prop :=
  ∀ r ∈ chunks, r.Choices ≠ []

instance (chunks : List ChatCompletionStreamResponse) : Decidable (WellFormed chunks) :=
  inferInstanceAs (Decidable (∀ r ∈ chunks, r.Choices ≠ []))

/-- Concatenation of a list of strings onto `acc`, in order. -/
def concatOnto (acc : String) (fragments : List String) : String :=
  fragments.foldl (fun a f => a ++ f) acc

/-- The line read at the prompt and the lines after it give this effective text. -/
def effectiveText (scanner : List String) : String :=
  (resolve (scanText scanner) scanner.tail).1

/-- The lines left once the effective text has been read. -/
def afterText (scanner : List String) : List String :=
  (resolve (scanText scanner) scanner.tail).2.1

/-- Strict alternation: user, assistant, user, assistant, ... ending with an assistant. -/
def alternating : List ChatCompletionMessage → Bool
  | [] => true
  | [_] => false
  | u :: a :: rest => u.Role == "user" && a.Role == "assistant" && alternating rest

/-- Only user and assistant messages, every assistant message right after a user message;
`prevUser` tells whether the previous message is a user message. -/
def userLed : Bool → List ChatCompletionMessage → Bool
  | _, [] => true
  | prevUser, m :: rest =>
    if m.Role = "user" then userLed true rest
    else if m.Role = "assistant" then prevUser && userLed false rest
    else false

/-- The user/assistant pairs of the exchanges with the given texts and streams. -/
def exchangePairs : List String → List ChatCompletionStream → List ChatCompletionMessage
  | t :: ts, st :: sts =>
    { Role := "user", Content := t } ::
      { Role := "assistant", Content := concatOnto "" (fragmentsOf st.chunks) } ::
      exchangePairs ts sts
  | _, _ => []

/-- The transcript invariant: the seed first, then only user and assistant turns with
every assistant turn right after a user turn, in strict alternation when every call of
the client made so far returned a stream. -/
def TranscriptInv (client : Nat → Except String ChatCompletionStream) (s : State) : Prop :=
  (∃ rest, s.messages = seed :: rest ∧ userLed false rest = true) ∧
  ((∀ k, k < s.calls → ∃ st, client k = .ok st) → alternating s.messages.tail = true)

/-- The invariant for an outcome; strict alternation is not asked of a panicked one. -/
def OutcomeInv (client : Nat → Except String ChatCompletionStream) (o : Outcome) : Prop :=
  (∃ rest, o.state.messages = seed :: rest ∧ userLed false rest = true) ∧
  ((∀ k, k < o.state.calls → ∃ st, client k = .ok st) → o.isPanicked = false →
    alternating o.state.messages.tail = true)

/-! ## Theorems -/

theorem dropWhile_append_space (l : List Char) (c : Char) (hc : isSpace c = true) :
    ((l ++ [c]).dropWhile isSpace).reverse.dropWhile isSpace =
      (l.dropWhile isSpace).reverse.dropWhile isSpace := by
  induction l with
  | nil => simp [List.dropWhile, hc]
  | cons a l ih =>
    by_cases ha : isSpace a = true
    · simpa [List.dropWhile, ha] using ih
    · simp [List.dropWhile, ha, hc]

theorem TrimSpace_append_newline (s : String) : TrimSpace (s ++ "\n") = TrimSpace s := by
  unfold TrimSpace
  have h : (s ++ "\n").data = s.data ++ ['\n'] := by simp [String.data_append]
  rw [h, dropWhile_append_space _ _ (by decide)]

theorem TrimSpace_empty : TrimSpace "" = "" := by decide

theorem pasteLoop_fst (lines : List String) (b : String) :
    (pasteLoop lines b).1 =
      (lines.takeWhile (fun l => l ≠ "done")).foldl (fun acc l => acc ++ (l ++ "\n")) b := by
  induction lines generalizing b with
  | nil => simp [pasteLoop]
  | cons l ls ih =>
    by_cases h : l = "done"
    · simp [pasteLoop, h, List.takeWhile]
    · simp [pasteLoop, h, List.takeWhile, ih]

theorem intercalate_go_newline (as : List String) (x : String) :
    as.foldl (fun acc l => acc ++ (l ++ "\n")) (x ++ "\n") =
      String.intercalate.go x "\n" as ++ "\n" := by
  induction as generalizing x with
  | nil => simp [String.intercalate.go]
  | cons a as ih =>
    simp only [List.foldl_cons, String.intercalate.go]
    rw [← ih (x ++ "\n" ++ a)]
    simp [String.append_assoc]

theorem TrimSpace_builder (ls : List String) :
    TrimSpace (ls.foldl (fun acc l => acc ++ (l ++ "\n")) "") =
      TrimSpace ("\n".intercalate ls) := by
  cases ls with
  | nil => simp [String.intercalate]
  | cons a as =>
    simp only [List.foldl_cons, String.intercalate]
    have h : ("" : String) ++ (a ++ "\n") = a ++ "\n" := by simp
    rw [h, intercalate_go_newline, TrimSpace_append_newline]

/-- C4: in paste mode the effective text is the lines before the first `done` (all the
lines left when there is none), joined with newlines and then trimmed; the lines
`a`, `b`, `done` give the text `a`, newline, `b`. -/
theorem paste_effective_text (lines : List String) :
    (resolve "paste" lines).1 = pasteSpec lines ∧
    effectiveText ("paste" :: lines) = pasteSpec lines ∧
    (resolve "paste" ["a", "b", "done"]).1 = "a\nb" := by
  have h1 : (resolve "paste" lines).1 = pasteSpec lines := by
    simp only [resolve, pasteSpec, if_true, pasteLoop_fst]
    exact TrimSpace_builder _
  refine ⟨h1, ?_, by decide⟩
  simpa [effectiveText, scanText] using h1

/-- C8: the three allow-listed short names select their full identifiers, every other
value (the empty one of an unset variable included) selects `llama-3.1-8b-instant`, and
the selected model is always one of the three full identifiers. -/
theorem selectedModel_spec :
    selectedModel "llama-instant" = "llama-3.1-8b-instant" ∧
    selectedModel "llama-70b" = "llama3-70b-8192" ∧
    selectedModel "mixtral" = "mixtral-8x7b-32768" ∧
    selectedModel "" = "llama-3.1-8b-instant" ∧
    (∀ m : String, m ≠ "llama-instant" → m ≠ "llama-70b" → m ≠ "mixtral" →
      selectedModel m = "llama-3.1-8b-instant") ∧
    (∀ m : String, selectedModel m ∈ validModels.map Prod.snd) := by
  have hother : ∀ m : String, m ≠ "llama-instant" → m ≠ "llama-70b" → m ≠ "mixtral" →
      selectedModel m = "llama-3.1-8b-instant" := by
    intro m h1 h2 h3
    have e : validModelsAt m = "" := by
      have b1 : (m == "llama-instant") = false := by simpa using h1
      have b2 : (m == "llama-70b") = false := by simpa using h2
      have b3 : (m == "mixtral") = false := by simpa using h3
      simp [validModelsAt, validModels, List.lookup, b1, b2, b3]
    have d : validModelsAt "llama-instant" = "llama-3.1-8b-instant" := by decide
    simp [selectedModel, e, d]
  refine ⟨by decide, by decide, by decide, by decide, hother, ?_⟩
  intro m
  by_cases h1 : m = "llama-instant"
  · subst h1; decide
  · by_cases h2 : m = "llama-70b"
    · subst h2; decide
    · by_cases h3 : m = "mixtral"
      · subst h3; decide
      · rw [hother m h1 h2 h3]; decide

/-- Witness of C8 at a value outside the allow-list. -/
theorem selectedModel_spec_witness : selectedModel "gpt-4" = "llama-3.1-8b-instant" :=
  selectedModel_spec.2.2.2.2.1 "gpt-4" (by decide) (by decide) (by decide)

theorem splitChars_length (sep : Char) (l : List Char) :
    (splitChars sep l).length = l.count sep + 1 := by
  induction l with
  | nil => simp [splitChars]
  | cons c cs ih =>
    by_cases h : c = sep
    · subst h
      simp [splitChars, ih]
    · have h' : ¬ (c == sep) = true := by simpa using h
      simp only [splitChars, h, if_false]
      rw [List.count_cons]
      simp only [h', Bool.false_eq_true, if_false, Nat.add_zero]
      cases hsp : splitChars sep cs with
      | nil => simp [hsp] at ih
      | cons p ps => simpa [hsp] using ih

theorem Split_length (s : String) (sep : Char) :
    (Split s sep).length = s.data.count sep + 1 := by
  simp [Split, splitChars_length]

/-- C6 as stated fails: for the text `hi` and an empty response the reported output
count is 1 and the total 2, while the response has no word. -/
theorem metrics_not_word_count :
    ¬ (∀ text fullResponse : String,
        metricsEvents true text fullResponse =
          [Event.metrics (wordCount text) (wordCount fullResponse)
            (wordCount text + wordCount fullResponse)]) := by
  intro h
  have h1 := h "hi" ""
  revert h1
  decide

theorem recvLoop_wellFormed (err : RecvError) (chunks : List ChatCompletionStreamResponse)
    (fullResponse : String) (out : List Event) (hwf : WellFormed chunks) :
    recvLoop err chunks fullResponse out =
      .done (concatOnto fullResponse (fragmentsOf chunks))
        (out ++ (fragmentsOf chunks).map Event.fragment ++
          (if Contains err.Error "EOF" then [] else [Event.errorReceiving err.Error])) := by
  induction chunks generalizing fullResponse out with
  | nil =>
    by_cases h : Contains err.Error "EOF" = true <;>
      simp [recvLoop, h, fragmentsOf, concatOnto]
  | cons r rest ih =>
    have hr : r.Choices ≠ [] := hwf r (List.mem_cons_self _ _)
    have hrest : WellFormed rest := fun x hx => hwf x (List.mem_cons_of_mem _ hx)
    cases hc : r.Choices with
    | nil => exact absurd hc hr
    | cons c cs =>
      have hf : fragmentsOf (r :: rest) = c.Delta.Content :: fragmentsOf rest := by
        simp [fragmentsOf, List.filterMap_cons, hc]
      simp only [recvLoop, hc]
      rw [ih _ _ hrest, hf]
      simp [concatOnto]

/-- C7 as stated fails: a receive error other than `io.EOF` whose message is
`unexpected EOF` ends the collection without being reported. -/
theorem recv_error_not_always_reported :
    ¬ (∀ (err : RecvError) (fullResponse : String) (out : List Event), err ≠ RecvError.EOF →
        recvLoop err [] fullResponse out =
          .done fullResponse (out ++ [Event.errorReceiving err.Error])) := by
  intro h
  have h1 := h (RecvError.other "unexpected EOF") "" [] (by decide)
  revert h1
  decide

/-- C7, amended: on a stream whose responses all carry a choice, the collection ends at
the first receive error with the fragments received so far accumulated in order; the
error is reported exactly when its message does not contain `EOF`, so the end-of-stream
signal `io.EOF` is never reported. -/
theorem recv_error_reporting (err : RecvError) (chunks : List ChatCompletionStreamResponse)
    (fullResponse : String) (out : List Event) (hwf : WellFormed chunks) :
    (Contains err.Error "EOF" = false →
      recvLoop err chunks fullResponse out =
        .done (concatOnto fullResponse (fragmentsOf chunks))
          (out ++ (fragmentsOf chunks).map Event.fragment ++
            [Event.errorReceiving err.Error])) ∧
    (Contains err.Error "EOF" = true →
      recvLoop err chunks fullResponse out =
        .done (concatOnto fullResponse (fragmentsOf chunks))
          (out ++ (fragmentsOf chunks).map Event.fragment)) ∧
    Contains RecvError.EOF.Error "EOF" = true := by
  refine ⟨fun h => ?_, fun h => ?_, by decide⟩
  · rw [recvLoop_wellFormed err chunks fullResponse out hwf]; simp [h]
  · rw [recvLoop_wellFormed err chunks fullResponse out hwf]; simp [h]

/-- Witness of C7: a stream that delivers `Hel`, `lo` and then fails with `timeout`. -/
theorem recv_error_reporting_witness :
    recvLoop (.other "timeout") [⟨[⟨⟨"Hel"⟩⟩]⟩, ⟨[⟨⟨"lo"⟩⟩]⟩] "" [] =
      .done "Hello" [Event.fragment "Hel", Event.fragment "lo",
        Event.errorReceiving "timeout"] :=
  (recv_error_reporting (.other "timeout") [⟨[⟨⟨"Hel"⟩⟩]⟩, ⟨[⟨⟨"lo"⟩⟩]⟩] "" []
    (by decide)).1 (by decide)

/-- C9 fails on the code: a received response without choices makes the iteration end in
the index-out-of-range panic of `response.Choices[0]`. -/
theorem empty_choices_panics :
    iteration ⟨"llama-3.1-8b-instant", false⟩
        (fun _ => .ok ⟨[⟨[]⟩], RecvError.EOF⟩) (initState ["hi"]) =
      .panicked
        { messages := [seed, ⟨"user", "hi"⟩], scanner := [], calls := 1,
          out := [Event.clearScreen, Event.userPrompt,
            Event.createStream "llama-3.1-8b-instant" [seed, ⟨"user", "hi"⟩],
            Event.assistantPrompt] } := by
  decide

theorem exchange_ok_out (cfg : Config) (client : Nat → Except String ChatCompletionStream)
    (s : State) (scanner : List String) (out : List Event) (text : String)
    (st : ChatCompletionStream) (hc : client s.calls = .ok st) (hwf : WellFormed st.chunks) :
    ∃ out', (exchange cfg client s scanner out text).state.out =
      out' ++ metricsEvents cfg.verbose text (concatOnto "" (fragmentsOf st.chunks)) := by
  unfold exchange
  simp only [hc, recvLoop_wellFormed st.err st.chunks "" _ hwf, Outcome.state]
  exact ⟨_, rfl⟩

/-- C6, amended: with verbose metrics the reported input and output counts are the
numbers of pieces of the effective text and of the accumulated response between single
space characters (one more than the number of spaces), and the total is their sum; an
exchange whose stream was created and whose responses all carry a choice ends its output
with this report for its text and the concatenation of its fragments. -/
theorem metrics_space_pieces (cfg : Config)
    (client : Nat → Except String ChatCompletionStream)
    (s : State) (scanner : List String) (out : List Event) (text fullResponse : String)
    (st : ChatCompletionStream) (hv : cfg.verbose = true)
    (hc : client s.calls = .ok st) (hwf : WellFormed st.chunks) :
    metricsEvents true text fullResponse =
      [Event.metrics (text.data.count ' ' + 1) (fullResponse.data.count ' ' + 1)
        ((text.data.count ' ' + 1) + (fullResponse.data.count ' ' + 1))] ∧
    (exchange cfg client s scanner out text).state.out.getLast? =
      some (Event.metrics (text.data.count ' ' + 1)
        ((concatOnto "" (fragmentsOf st.chunks)).data.count ' ' + 1)
        ((text.data.count ' ' + 1) +
          ((concatOnto "" (fragmentsOf st.chunks)).data.count ' ' + 1))) := by
  have hm : ∀ t f : String, metricsEvents true t f =
      [Event.metrics (t.data.count ' ' + 1) (f.data.count ' ' + 1)
        ((t.data.count ' ' + 1) + (f.data.count ' ' + 1))] := by
    intro t f
    simp [metricsEvents, Split_length]
  refine ⟨hm _ _, ?_⟩
  obtain ⟨out', ho⟩ := exchange_ok_out cfg client s scanner out text st hc hwf
  rw [ho, hv, hm]
  simp

/-- Witness of C6: the text `hi there` answered by the fragments `Hel` and `lo  x`. -/
theorem metrics_space_pieces_witness :
    metricsEvents true "hi there" "" = [Event.metrics 2 1 3] ∧
    (exchange ⟨"llama-3.1-8b-instant", true⟩
        (fun _ => .ok ⟨[⟨[⟨⟨"Hel"⟩⟩]⟩, ⟨[⟨⟨"lo  x"⟩⟩]⟩], .EOF⟩)
        (initState []) [] [] "hi there").state.out.getLast? =
      some (Event.metrics 2 3 5) :=
  metrics_space_pieces ⟨"llama-3.1-8b-instant", true⟩
    (fun _ => .ok ⟨[⟨[⟨⟨"Hel"⟩⟩]⟩, ⟨[⟨⟨"lo  x"⟩⟩]⟩], .EOF⟩)
    (initState []) [] [] "hi there" "" ⟨[⟨[⟨⟨"Hel"⟩⟩]⟩, ⟨[⟨⟨"lo  x"⟩⟩]⟩], .EOF⟩
    rfl rfl (by decide)

theorem iteration_exit (cfg : Config) (client : Nat → Except String ChatCompletionStream)
    (s : State) (h : scanText s.scanner = "exit") :
    iteration cfg client s =
      .terminated { s with scanner := s.scanner.tail, out := s.out ++ [Event.userPrompt] } := by
  simp [iteration, h]

theorem iteration_clear (cfg : Config) (client : Nat → Except String ChatCompletionStream)
    (s : State) (h : scanText s.scanner = "clear") :
    iteration cfg client s =
      .running { s with scanner := s.scanner.tail,
                        out := s.out ++ [Event.userPrompt] ++ [Event.clearScreen] } := by
  simp [iteration, h]

theorem iteration_skip (cfg : Config) (client : Nat → Except String ChatCompletionStream)
    (s : State) (h1 : scanText s.scanner ≠ "exit") (h2 : scanText s.scanner ≠ "clear")
    (h3 : effectiveText s.scanner = "") :
    ∃ out, iteration cfg client s =
      .running { s with scanner := afterText s.scanner, out := out } := by
  unfold effectiveText at h3
  simp only [iteration, h1, h2, if_false, h3, if_true, afterText]
  exact ⟨_, rfl⟩

theorem iteration_exchange (cfg : Config) (client : Nat → Except String ChatCompletionStream)
    (s : State) (h1 : scanText s.scanner ≠ "exit") (h2 : scanText s.scanner ≠ "clear")
    (h3 : effectiveText s.scanner ≠ "") :
    ∃ out, iteration cfg client s =
      exchange cfg client s (afterText s.scanner) out (effectiveText s.scanner) := by
  unfold effectiveText at h3
  simp only [iteration, h1, h2, if_false, h3, afterText, effectiveText]
  exact ⟨_, rfl⟩

theorem exchange_effect (cfg : Config) (client : Nat → Except String ChatCompletionStream)
    (s : State) (scanner : List String) (out : List Event) (text : String) :
    (exchange cfg client s scanner out text).state.calls = s.calls + 1 ∧
    (exchange cfg client s scanner out text).state.scanner = scanner ∧
    ∃ tail, (exchange cfg client s scanner out text).state.messages =
      s.messages ++ { Role := "user", Content := text } :: tail := by
  unfold exchange
  cases client s.calls with
  | error e => exact ⟨rfl, rfl, [], rfl⟩
  | ok stream =>
    simp only
    cases recvLoop stream.err stream.chunks "" (out ++ [Event.createStream cfg.selectedModel
        (s.messages ++ [{ Role := "user", Content := text }])] ++ [Event.assistantPrompt]) with
    | panic o => exact ⟨rfl, rfl, [], rfl⟩
    | done full o => exact ⟨rfl, rfl, [{ Role := "assistant", Content := full }], by simp [Outcome.state]⟩

theorem pasteLoop_blank (ws : List String) (rest : List String) (b : String)
    (hws : ∀ l ∈ ws, l.data.all isSpace = true) (hb : b.data.all isSpace = true) :
    (pasteLoop (ws ++ "done" :: rest) b).1.data.all isSpace = true ∧
    (pasteLoop (ws ++ "done" :: rest) b).2 = rest := by
  induction ws generalizing b with
  | nil => simpa [pasteLoop] using hb
  | cons l ls ih =>
    have hl : l.data.all isSpace = true := hws l (List.mem_cons_self _ _)
    have hne : l ≠ "done" := by
      intro h
      rw [h] at hl
      revert hl
      decide
    have hb' : (b ++ (l ++ "\n")).data.all isSpace = true := by
      have hn : isSpace '\n' = true := by decide
      simp only [String.data_append, List.all_append, hb, hl, Bool.true_and]
      simpa using hn
    simpa [pasteLoop, hne] using
      ih (b ++ (l ++ "\n")) (fun x hx => hws x (List.mem_cons_of_mem _ hx)) hb'

theorem TrimSpace_blank (s : String) (h : s.data.all isSpace = true) : TrimSpace s = "" := by
  have hd : s.data.dropWhile isSpace = [] := by
    rw [List.dropWhile_eq_nil_iff]
    intro x hx
    exact (List.all_eq_true.mp h) x hx
  simp [TrimSpace, hd]

theorem effectiveText_blank_paste (ws rest : List String)
    (hws : ∀ l ∈ ws, l.data.all isSpace = true) :
    effectiveText ("paste" :: (ws ++ "done" :: rest)) = "" := by
  have h := pasteLoop_blank ws rest "" hws (by decide)
  simp only [effectiveText, scanText, resolve, List.head?_cons, Option.getD_some,
    List.tail_cons, if_true]
  exact TrimSpace_blank _ h.1

/-- C5: an iteration appends a user turn holding the effective text and calls the
completion client exactly when the line read is neither `exit` nor `clear` and the
effective text is not empty; otherwise the transcript and the number of calls are
unchanged, in particular for `clear`, for an empty line and for `paste` followed by
no line or only blank lines before `done`. -/
theorem user_turn_iff (cfg : Config) (client : Nat → Except String ChatCompletionStream)
    (s : State) :
    ((scanText s.scanner ≠ "exit" ∧ scanText s.scanner ≠ "clear" ∧
        effectiveText s.scanner ≠ "") ↔
      ((iteration cfg client s).state.calls = s.calls + 1 ∧
        ∃ tail, (iteration cfg client s).state.messages =
          s.messages ++ { Role := "user", Content := effectiveText s.scanner } :: tail)) ∧
    (¬ (scanText s.scanner ≠ "exit" ∧ scanText s.scanner ≠ "clear" ∧
        effectiveText s.scanner ≠ "") →
      (iteration cfg client s).state.calls = s.calls ∧
      (iteration cfg client s).state.messages = s.messages) ∧
    (scanText s.scanner = "clear" ∨ scanText s.scanner = "" ∨
      (∃ ws rest, s.scanner = "paste" :: (ws ++ "done" :: rest) ∧
        ∀ l ∈ ws, l.data.all isSpace = true) →
      (iteration cfg client s).state.calls = s.calls ∧
      (iteration cfg client s).state.messages = s.messages) := by
  have hpos : (scanText s.scanner ≠ "exit" ∧ scanText s.scanner ≠ "clear" ∧
        effectiveText s.scanner ≠ "") →
      ((iteration cfg client s).state.calls = s.calls + 1 ∧
        ∃ tail, (iteration cfg client s).state.messages =
          s.messages ++ { Role := "user", Content := effectiveText s.scanner } :: tail) := by
    rintro ⟨h1, h2, h3⟩
    obtain ⟨out, ho⟩ := iteration_exchange cfg client s h1 h2 h3
    rw [ho]
    have he := exchange_effect cfg client s (afterText s.scanner) out (effectiveText s.scanner)
    exact ⟨he.1, he.2.2⟩
  have hneg : ¬ (scanText s.scanner ≠ "exit" ∧ scanText s.scanner ≠ "clear" ∧
        effectiveText s.scanner ≠ "") →
      (iteration cfg client s).state.calls = s.calls ∧
      (iteration cfg client s).state.messages = s.messages := by
    intro hn
    by_cases h1 : scanText s.scanner = "exit"
    · rw [iteration_exit cfg client s h1]; exact ⟨rfl, rfl⟩
    · by_cases h2 : scanText s.scanner = "clear"
      · rw [iteration_clear cfg client s h2]; exact ⟨rfl, rfl⟩
      · have h3 : effectiveText s.scanner = "" := by
          by_contra h3
          exact hn ⟨h1, h2, h3⟩
        obtain ⟨out, ho⟩ := iteration_skip cfg client s h1 h2 h3
        rw [ho]; exact ⟨rfl, rfl⟩
  refine ⟨⟨hpos, fun h => ?_⟩, hneg, fun h => ?_⟩
  · by_contra hn
    have := (hneg hn).1
    omega
  · apply hneg
    rintro ⟨h1, h2, h3⟩
    rcases h with h | h | ⟨ws, rest, hs, hws⟩
    · exact h2 h
    · apply h3
      have hp : scanText s.scanner ≠ "paste" := by rw [h]; decide
      simp [effectiveText, resolve, hp, h]
    · apply h3
      rw [hs]
      exact effectiveText_blank_paste ws rest hws

/-- Witness of C5: `paste` followed by a blank line and `done` leaves the transcript as it
is and makes no call. -/
theorem user_turn_iff_witness :
    (iteration ⟨"llama-3.1-8b-instant", true⟩ (fun _ => .error "unreachable")
        (initState ["paste", " ", "done", "hi"])).state.calls = 0 ∧
    (iteration ⟨"llama-3.1-8b-instant", true⟩ (fun _ => .error "unreachable")
        (initState ["paste", " ", "done", "hi"])).state.messages = [seed] :=
  (user_turn_iff ⟨"llama-3.1-8b-instant", true⟩ (fun _ => .error "unreachable")
    (initState ["paste", " ", "done", "hi"])).2.2
    (Or.inr (Or.inr ⟨[" "], ["hi"], rfl, by decide⟩))

theorem run_add (cfg : Config) (client : Nat → Except String ChatCompletionStream)
    (a b : Nat) (s : State) :
    run cfg client (a + b) s =
      match run cfg client a s with
      | .running s' => run cfg client b s'
      | o => o := by
  induction a generalizing s with
  | zero => simp [run]
  | succ a ih =>
    have e : a + 1 + b = (a + b) + 1 := by omega
    rw [e]
    simp only [run]
    cases h : iteration cfg client s with
    | running s1 => simpa using ih s1
    | terminated s1 => rfl
    | panicked s1 => rfl

theorem scanText_exit_iff (scanner : List String) :
    scanText scanner = "exit" ↔ scanner.head? = some "exit" := by
  cases scanner with
  | nil => simp [scanText]
  | cons l ls => simp [scanText]

theorem iteration_terminated_iff (cfg : Config)
    (client : Nat → Except String ChatCompletionStream) (s : State) :
    (∃ s', iteration cfg client s = .terminated s') ↔ s.scanner.head? = some "exit" := by
  rw [← scanText_exit_iff]
  constructor
  · rintro ⟨s', h⟩
    by_contra h1
    by_cases h2 : scanText s.scanner = "clear"
    · rw [iteration_clear cfg client s h2] at h; cases h
    · by_cases h3 : effectiveText s.scanner = ""
      · obtain ⟨out, ho⟩ := iteration_skip cfg client s h1 h2 h3
        rw [ho] at h; cases h
      · obtain ⟨out, ho⟩ := iteration_exchange cfg client s h1 h2 h3
        rw [ho] at h
        unfold exchange at h
        cases hc : client s.calls with
        | error e => simp [hc] at h
        | ok stream =>
          simp only [hc] at h
          split at h <;> cases h
  · intro h
    exact ⟨_, iteration_exit cfg client s h⟩

theorem run_terminated_iff (cfg : Config)
    (client : Nat → Except String ChatCompletionStream) (n : Nat) (s : State) :
    (∃ s', run cfg client n s = .terminated s') ↔
      ∃ k s', k < n ∧ run cfg client k s = .running s' ∧ s'.scanner.head? = some "exit" := by
  constructor
  · induction n generalizing s with
    | zero => rintro ⟨s', h⟩; simp [run] at h
    | succ n ih =>
      rintro ⟨s', h⟩
      simp only [run] at h
      cases hi : iteration cfg client s with
      | running s1 =>
        rw [hi] at h
        obtain ⟨k, s2, hk, hr, hh⟩ := ih s1 ⟨s', h⟩
        refine ⟨k + 1, s2, by omega, ?_, hh⟩
        simp only [run, hi]
        exact hr
      | terminated s1 =>
        exact ⟨0, s, by omega, rfl, (iteration_terminated_iff cfg client s).mp ⟨s1, hi⟩⟩
      | panicked s1 => rw [hi] at h; cases h
  · rintro ⟨k, s', hk, hr, hh⟩
    obtain ⟨s2, h2⟩ := (iteration_terminated_iff cfg client s').mpr hh
    have e : n = k + (1 + (n - k - 1)) := by omega
    rw [e, run_add, hr]
    simp only
    rw [run_add]
    simp only [run, h2]
    exact ⟨s2, rfl⟩

theorem run_exhausted (cfg : Config) (client : Nat → Except String ChatCompletionStream)
    (n : Nat) (s : State) (h : s.scanner = []) :
    ∃ s', run cfg client n s = .running s' ∧ s'.messages = s.messages ∧
      s'.scanner = [] ∧ s'.calls = s.calls := by
  induction n generalizing s with
  | zero => exact ⟨s, rfl, rfl, h, rfl⟩
  | succ n ih =>
    have ht : scanText s.scanner = "" := by simp [h, scanText]
    have h1 : scanText s.scanner ≠ "exit" := by rw [ht]; decide
    have h2 : scanText s.scanner ≠ "clear" := by rw [ht]; decide
    have hp : scanText s.scanner ≠ "paste" := by rw [ht]; decide
    have h3 : effectiveText s.scanner = "" := by simp [effectiveText, resolve, hp, ht]
    have ha : afterText s.scanner = [] := by
      rw [h] at hp
      simp [afterText, resolve, hp, h]
    obtain ⟨out, ho⟩ := iteration_skip cfg client s h1 h2 h3
    simp only [run, ho]
    obtain ⟨s', hr, hm, hs, hc⟩ := ih { s with scanner := afterText s.scanner, out := out } ha
    exact ⟨s', hr, hm, hs, hc⟩

/-- C10: an iteration ends the loop exactly when the line read at the prompt is `exit`,
and a run of the loop is terminated exactly when some prompt of it read `exit`; an `exit`
line inside paste mode is text of the user turn and does not terminate; once the input is
exhausted each prompt reads the empty text, the transcript stays as it is and the loop
does not terminate, however long it runs. -/
theorem terminated_iff_exit (cfg : Config)
    (client : Nat → Except String ChatCompletionStream) :
    (∀ s : State,
      (∃ s', iteration cfg client s = .terminated s') ↔ s.scanner.head? = some "exit") ∧
    (∀ (n : Nat) (s : State),
      (∃ s', run cfg client n s = .terminated s') ↔
        ∃ k s', k < n ∧ run cfg client k s = .running s' ∧
          s'.scanner.head? = some "exit") ∧
    (∀ (s : State) (rest : List String), s.scanner = "paste" :: "exit" :: "done" :: rest →
      (∀ s', iteration cfg client s ≠ .terminated s') ∧
      effectiveText s.scanner = "exit" ∧
      ∃ tail, (iteration cfg client s).state.messages =
        s.messages ++ { Role := "user", Content := "exit" } :: tail) ∧
    (∀ s : State, s.scanner = [] →
      scanText s.scanner = "" ∧
      ∀ n : Nat, ∃ s', run cfg client n s = .running s' ∧ s'.messages = s.messages ∧
        s'.scanner = [] ∧ s'.calls = s.calls) := by
  refine ⟨iteration_terminated_iff cfg client, run_terminated_iff cfg client, ?_, ?_⟩
  · intro s rest hs
    have ht : scanText s.scanner = "paste" := by simp [hs, scanText]
    have h1 : scanText s.scanner ≠ "exit" := by rw [ht]; decide
    have h2 : scanText s.scanner ≠ "clear" := by rw [ht]; decide
    have he : effectiveText s.scanner = "exit" := by
      rw [hs]
      have : (resolve "paste" ("exit" :: "done" :: rest)).1 = "exit" := by
        have hne : ("exit" : String) ≠ "done" := by decide
        have hv : TrimSpace ("" ++ ("exit" ++ "\n")) = "exit" := by decide
        simp only [resolve, if_true, pasteLoop, hne, if_false]
        exact hv
      simpa [effectiveText, scanText] using this
    have h3 : effectiveText s.scanner ≠ "" := by rw [he]; decide
    refine ⟨fun s' hterm => ?_, he, ?_⟩
    · have := (iteration_terminated_iff cfg client s).mp ⟨s', hterm⟩
      rw [hs] at this
      simp at this
    · obtain ⟨out, ho⟩ := iteration_exchange cfg client s h1 h2 h3
      rw [ho, he]
      exact (exchange_effect cfg client s _ out "exit").2.2
  · intro s hs
    exact ⟨by simp [hs, scanText], fun n => run_exhausted cfg client n s hs⟩

/-- Witness of C10: from the empty input, ten iterations leave the loop running with the
seed transcript. -/
theorem terminated_iff_exit_witness :
    ∃ s', run ⟨"llama-3.1-8b-instant", false⟩ (fun _ => .error "down") 10 (initState []) =
        .running s' ∧ s'.messages = [seed] ∧ s'.scanner = [] ∧ s'.calls = 0 :=
  ((terminated_iff_exit ⟨"llama-3.1-8b-instant", false⟩ (fun _ => .error "down")).2.2.2
    (initState []) rfl).2 10

theorem exchange_ok (cfg : Config) (client : Nat → Except String ChatCompletionStream)
    (s : State) (scanner : List String) (out : List Event) (text : String)
    (st : ChatCompletionStream) (hc : client s.calls = .ok st) (hwf : WellFormed st.chunks) :
    ∃ out', exchange cfg client s scanner out text =
      .running { messages := s.messages ++ [{ Role := "user", Content := text },
                   { Role := "assistant", Content := concatOnto "" (fragmentsOf st.chunks) }],
                 scanner := scanner, calls := s.calls + 1, out := out' } := by
  unfold exchange
  simp only [hc, recvLoop_wellFormed st.err st.chunks "" _ hwf, List.append_assoc,
    List.cons_append, List.nil_append]
  exact ⟨_, rfl⟩

theorem exchange_error (cfg : Config) (client : Nat → Except String ChatCompletionStream)
    (s : State) (scanner : List String) (out : List Event) (text : String)
    (e : String) (hc : client s.calls = .error e) :
    ∃ out', exchange cfg client s scanner out text =
      .running { messages := s.messages ++ [{ Role := "user", Content := text }],
                 scanner := scanner, calls := s.calls + 1, out := out' } := by
  unfold exchange
  simp only [hc]
  exact ⟨_, rfl⟩

theorem plain_line (l : String) (ls : List String) (hp : l ≠ "paste") :
    scanText (l :: ls) = l ∧ effectiveText (l :: ls) = l ∧ afterText (l :: ls) = ls := by
  simp [scanText, effectiveText, afterText, resolve, hp]

theorem run_exchanges (cfg : Config) (client : Nat → Except String ChatCompletionStream)
    (lines : List String) (streams : List ChatCompletionStream) (s : State)
    (hs : s.scanner = lines)
    (hcmd : ∀ l ∈ lines, l ≠ "exit" ∧ l ≠ "clear" ∧ l ≠ "paste")
    (hlen : streams.length = (lines.filter (fun l => l ≠ "")).length)
    (hclient : ∀ k st, streams[k]? = some st → client (s.calls + k) = .ok st)
    (hwf : ∀ st ∈ streams, WellFormed st.chunks) :
    ∃ s', run cfg client lines.length s = .running s' ∧
      s'.messages = s.messages ++ exchangePairs (lines.filter (fun l => l ≠ "")) streams ∧
      s'.calls = s.calls + streams.length ∧ s'.scanner = [] := by
  induction lines generalizing s streams with
  | nil =>
    have : streams = [] := by simpa using hlen
    subst this
    exact ⟨s, rfl, by simp [exchangePairs], rfl, hs⟩
  | cons l ls ih =>
    obtain ⟨hx, hcl, hp⟩ := hcmd l (List.mem_cons_self _ _)
    have hcmd' : ∀ x ∈ ls, x ≠ "exit" ∧ x ≠ "clear" ∧ x ≠ "paste" :=
      fun x hx => hcmd x (List.mem_cons_of_mem _ hx)
    obtain ⟨ht, he, ha⟩ := plain_line l ls hp
    rw [← hs] at ht he ha
    have h1 : scanText s.scanner ≠ "exit" := by rw [ht]; exact hx
    have h2 : scanText s.scanner ≠ "clear" := by rw [ht]; exact hcl
    by_cases hl : l = ""
    · have h3 : effectiveText s.scanner = "" := by rw [he]; exact hl
      obtain ⟨out, ho⟩ := iteration_skip cfg client s h1 h2 h3
      have hf : (l :: ls).filter (fun l => l ≠ "") = ls.filter (fun l => l ≠ "") := by
        simp [List.filter_cons, hl]
      rw [hf] at hlen ⊢
      obtain ⟨s', hr, hm, hc, hsc⟩ :=
        ih streams { s with scanner := afterText s.scanner, out := out } ha hcmd' hlen
          hclient hwf
      refine ⟨s', ?_, hm, hc, hsc⟩
      simp only [List.length_cons, run, ho]
      exact hr
    · have h3 : effectiveText s.scanner ≠ "" := by rw [he]; exact hl
      have hf : (l :: ls).filter (fun l => l ≠ "") = l :: ls.filter (fun l => l ≠ "") := by
        simp [List.filter_cons, hl]
      rw [hf] at hlen ⊢
      cases streams with
      | nil => simp at hlen
      | cons st sts =>
        have hc0 : client s.calls = .ok st := by simpa using hclient 0 st (by simp)
        have hwf0 : WellFormed st.chunks := hwf st (List.mem_cons_self _ _)
        obtain ⟨out, ho⟩ := iteration_exchange cfg client s h1 h2 h3
        obtain ⟨out', ho'⟩ :=
          exchange_ok cfg client s (afterText s.scanner) out (effectiveText s.scanner) st
            hc0 hwf0
        rw [ho'] at ho
        obtain ⟨s', hr, hm, hc, hsc⟩ :=
          ih sts
            { messages := s.messages ++ [{ Role := "user", Content := effectiveText s.scanner },
                { Role := "assistant", Content := concatOnto "" (fragmentsOf st.chunks) }],
              scanner := afterText s.scanner, calls := s.calls + 1, out := out' }
            ha hcmd' (by simpa using hlen)
            (fun k x hk => by
              have := hclient (k + 1) x (by simpa using hk)
              simpa [Nat.add_assoc, Nat.add_comm 1 k] using this)
            (fun x hx => hwf x (List.mem_cons_of_mem _ hx))
        refine ⟨s', ?_, ?_, ?_, hsc⟩
        · simp only [List.length_cons, run, ho]
          exact hr
        · rw [hm, he]; simp [exchangePairs]
        · rw [hc]; simp; omega

theorem exchangePairs_length (ts : List String) (sts : List ChatCompletionStream)
    (h : sts.length = ts.length) : (exchangePairs ts sts).length = 2 * sts.length := by
  induction ts generalizing sts with
  | nil =>
    have : sts = [] := by simpa using h
    subst this; simp [exchangePairs]
  | cons t ts ih =>
    cases sts with
    | nil => simp at h
    | cons st sts =>
      simp only [exchangePairs, List.length_cons]
      rw [ih sts (by simpa using h)]
      omega

theorem exchangePairs_alternating (ts : List String) (sts : List ChatCompletionStream) :
    alternating (exchangePairs ts sts) = true := by
  induction ts generalizing sts with
  | nil => simp [exchangePairs, alternating]
  | cons t ts ih =>
    cases sts with
    | nil => simp [exchangePairs, alternating]
    | cons st sts => simpa [exchangePairs, alternating] using ih sts

/-- C1: when the input lines are no commands, the client answers the k-th non-empty line
with the k-th of N streams and every response of these streams carries a choice, the loop
run over the lines ends with the transcript made of the seed, then for each non-empty
line in order its user turn followed by the assistant turn holding the concatenation of
the fragments of its stream, whatever error ended the stream; the transcript has
1 + 2N turns, in strict user/assistant alternation after the seed. -/
theorem transcript_after_exchanges (cfg : Config)
    (client : Nat → Except String ChatCompletionStream)
    (lines : List String) (streams : List ChatCompletionStream)
    (hcmd : ∀ l ∈ lines, l ≠ "exit" ∧ l ≠ "clear" ∧ l ≠ "paste")
    (hlen : streams.length = (lines.filter (fun l => l ≠ "")).length)
    (hclient : ∀ k st, streams[k]? = some st → client k = .ok st)
    (hwf : ∀ st ∈ streams, WellFormed st.chunks) :
    ∃ s', run cfg client lines.length (initState lines) = .running s' ∧
      s'.messages = seed :: exchangePairs (lines.filter (fun l => l ≠ "")) streams ∧
      s'.messages.length = 1 + 2 * streams.length ∧
      alternating s'.messages.tail = true ∧
      s'.calls = streams.length := by
  obtain ⟨s', hr, hm, hc, _⟩ :=
    run_exchanges cfg client lines streams (initState lines) rfl hcmd hlen
      (fun k st hk => by simpa [initState] using hclient k st hk) hwf
  have hm' : s'.messages = seed :: exchangePairs (lines.filter (fun l => l ≠ "")) streams := by
    simpa [initState] using hm
  refine ⟨s', hr, hm', ?_, ?_, by simpa [initState] using hc⟩
  · rw [hm', List.length_cons, exchangePairs_length _ _ hlen]; omega
  · rw [hm']; exact exchangePairs_alternating _ _

/-- Witness of C1: two lines, the first stream ends normally after two fragments, the
second fails with a receive error after one fragment. -/
theorem transcript_after_exchanges_witness :
    ∃ s', run ⟨"llama-3.1-8b-instant", false⟩
        (fun k => if k = 0 then .ok ⟨[⟨[⟨⟨"Hel"⟩⟩]⟩, ⟨[⟨⟨"lo"⟩⟩]⟩], .EOF⟩
          else .ok ⟨[⟨[⟨⟨"par"⟩⟩]⟩], .other "timeout"⟩)
        2 (initState ["hi", "more"]) = .running s' ∧
      s'.messages = seed :: exchangePairs (["hi", "more"].filter (fun l => l ≠ ""))
        [⟨[⟨[⟨⟨"Hel"⟩⟩]⟩, ⟨[⟨⟨"lo"⟩⟩]⟩], .EOF⟩, ⟨[⟨[⟨⟨"par"⟩⟩]⟩], .other "timeout"⟩] ∧
      s'.messages.length = 1 + 2 * 2 ∧
      alternating s'.messages.tail = true ∧
      s'.calls = 2 :=
  transcript_after_exchanges ⟨"llama-3.1-8b-instant", false⟩
    (fun k => if k = 0 then .ok ⟨[⟨[⟨⟨"Hel"⟩⟩]⟩, ⟨[⟨⟨"lo"⟩⟩]⟩], .EOF⟩
      else .ok ⟨[⟨[⟨⟨"par"⟩⟩]⟩], .other "timeout"⟩)
    ["hi", "more"]
    [⟨[⟨[⟨⟨"Hel"⟩⟩]⟩, ⟨[⟨⟨"lo"⟩⟩]⟩], .EOF⟩, ⟨[⟨[⟨⟨"par"⟩⟩]⟩], .other "timeout"⟩]
    (by decide) (by decide)
    (by
      intro k st hk
      match k, hk with
      | 0, hk => simp at hk; simp [← hk]
      | 1, hk => simp at hk; simp [← hk]
      | k + 2, hk => simp at hk)
    (by decide)

theorem userLed_append_user (l : List ChatCompletionMessage) (p : Bool) (t : String)
    (h : userLed p l = true) :
    userLed p (l ++ [{ Role := "user", Content := t }]) = true := by
  induction l generalizing p with
  | nil => simp [userLed]
  | cons m rest ih =>
    simp only [List.cons_append, userLed] at h ⊢
    by_cases hu : m.Role = "user"
    · simp only [hu, if_true] at h ⊢
      exact ih true h
    · by_cases ha : m.Role = "assistant"
      · have hne : ¬ ("assistant" : String) = "user" := by decide
        simp only [ha, hne, if_true, if_false] at h ⊢
        rw [Bool.and_eq_true] at h ⊢
        exact ⟨h.1, ih false h.2⟩
      · simp [hu, ha] at h

theorem userLed_append_pair (l : List ChatCompletionMessage) (p : Bool) (t r : String)
    (h : userLed p l = true) :
    userLed p (l ++ [{ Role := "user", Content := t },
      { Role := "assistant", Content := r }]) = true := by
  induction l generalizing p with
  | nil =>
    have hne : ("assistant" : String) ≠ "user" := by decide
    simp [userLed, hne]
  | cons m rest ih =>
    simp only [List.cons_append, userLed] at h ⊢
    by_cases hu : m.Role = "user"
    · simp only [hu, if_true] at h ⊢
      exact ih true h
    · by_cases ha : m.Role = "assistant"
      · have hne : ¬ ("assistant" : String) = "user" := by decide
        simp only [ha, hne, if_true, if_false] at h ⊢
        rw [Bool.and_eq_true] at h ⊢
        exact ⟨h.1, ih false h.2⟩
      · simp [hu, ha] at h

theorem alternating_append_pair (l : List ChatCompletionMessage) (t r : String)
    (h : alternating l = true) :
    alternating (l ++ [{ Role := "user", Content := t },
      { Role := "assistant", Content := r }]) = true := by
  induction l using alternating.induct with
  | case1 => simp [alternating]
  | case2 m => simp [alternating] at h
  | case3 u a rest ih =>
    simp only [alternating, Bool.and_eq_true, List.cons_append] at h ⊢
    exact ⟨h.1, ih h.2⟩

theorem exchange_inv (cfg : Config) (client : Nat → Except String ChatCompletionStream)
    (s : State) (scanner : List String) (out : List Event) (text : String)
    (h : TranscriptInv client s) :
    OutcomeInv client (exchange cfg client s scanner out text) := by
  obtain ⟨⟨rest, hm, hu⟩, halt⟩ := h
  unfold exchange
  cases hc : client s.calls with
  | error e =>
    refine ⟨⟨rest ++ [{ Role := "user", Content := text }], by simp [Outcome.state, hm],
      userLed_append_user _ _ _ hu⟩, fun hok _ => ?_⟩
    obtain ⟨st, hst⟩ := hok s.calls (by simp [Outcome.state])
    rw [hc] at hst
    cases hst
  | ok stream =>
    simp only
    cases recvLoop stream.err stream.chunks "" (out ++ [Event.createStream cfg.selectedModel
        (s.messages ++ [{ Role := "user", Content := text }])] ++ [Event.assistantPrompt]) with
    | panic o =>
      exact ⟨⟨rest ++ [{ Role := "user", Content := text }], by simp [Outcome.state, hm],
        userLed_append_user _ _ _ hu⟩, fun _ hp => by simp [Outcome.isPanicked] at hp⟩
    | done full o =>
      refine ⟨⟨rest ++ [{ Role := "user", Content := text },
          { Role := "assistant", Content := full }], by simp [Outcome.state, hm],
        userLed_append_pair _ _ _ _ hu⟩, fun hok _ => ?_⟩
      have hprev : alternating s.messages.tail = true :=
        halt (fun k hk => hok k (by simp only [Outcome.state]; omega))
      rw [hm] at hprev
      simp only [Outcome.state, hm, List.cons_append, List.tail_cons, List.append_assoc,
        List.nil_append]
      exact alternating_append_pair _ _ _ hprev

theorem inv_outcome_of_state (client : Nat → Except String ChatCompletionStream)
    (s s' : State) (h : TranscriptInv client s)
    (hm : s'.messages = s.messages) (hc : s'.calls = s.calls) :
    TranscriptInv client s' := by
  unfold TranscriptInv at h ⊢
  rw [hm, hc]
  exact h

theorem iteration_inv (cfg : Config) (client : Nat → Except String ChatCompletionStream)
    (s : State) (h : TranscriptInv client s) :
    OutcomeInv client (iteration cfg client s) := by
  have hsame : ∀ o : Outcome, o.state.messages = s.messages → o.state.calls = s.calls →
      OutcomeInv client o := by
    intro o hm hc
    have := inv_outcome_of_state client s o.state h hm hc
    exact ⟨this.1, fun hok _ => this.2 hok⟩
  by_cases h1 : scanText s.scanner = "exit"
  · rw [iteration_exit cfg client s h1]; exact hsame _ rfl rfl
  · by_cases h2 : scanText s.scanner = "clear"
    · rw [iteration_clear cfg client s h2]; exact hsame _ rfl rfl
    · by_cases h3 : effectiveText s.scanner = ""
      · obtain ⟨out, ho⟩ := iteration_skip cfg client s h1 h2 h3
        rw [ho]; exact hsame _ rfl rfl
      · obtain ⟨out, ho⟩ := iteration_exchange cfg client s h1 h2 h3
        rw [ho]; exact exchange_inv cfg client s _ out _ h

theorem run_inv (cfg : Config) (client : Nat → Except String ChatCompletionStream)
    (n : Nat) (s : State) (h : TranscriptInv client s) :
    OutcomeInv client (run cfg client n s) := by
  induction n generalizing s with
  | zero => exact ⟨h.1, fun hok _ => h.2 hok⟩
  | succ n ih =>
    have hi := iteration_inv cfg client s h
    simp only [run]
    cases hit : iteration cfg client s with
    | running s1 =>
      rw [hit] at hi
      exact ih s1 ⟨hi.1, fun hok => hi.2 hok rfl⟩
    | terminated s1 => rw [hit] at hi; exact hi
    | panicked s1 => rw [hit] at hi; exact hi

theorem initState_inv (client : Nat → Except String ChatCompletionStream)
    (stdin : List String) : TranscriptInv client (initState stdin) :=
  ⟨⟨[], rfl, rfl⟩, fun _ => rfl⟩

/-- C2 as stated fails: when the first stream creation fails and the second succeeds, the
transcript is seed, user, user, assistant, which is not in strict alternation. -/
theorem alternation_broken_by_failed_creation :
    (run ⟨"llama-3.1-8b-instant", false⟩
        (fun k => if k = 0 then .error "connection refused" else .ok ⟨[], .EOF⟩)
        2 (initState ["hi", "there"])).state.messages =
      [seed, ⟨"user", "hi"⟩, ⟨"user", "there"⟩, ⟨"assistant", ""⟩] ∧
    alternating (run ⟨"llama-3.1-8b-instant", false⟩
        (fun k => if k = 0 then .error "connection refused" else .ok ⟨[], .EOF⟩)
        2 (initState ["hi", "there"])).state.messages.tail = false := by
  decide

/-- C2, amended: in every state the loop reaches from the start, the transcript is the
seed system turn followed only by user and assistant turns, every assistant turn right
after a user turn; when every call of the client made so far returned a stream and the
loop did not panic, the turns after the seed are in strict user/assistant alternation. -/
theorem transcript_invariant (cfg : Config)
    (client : Nat → Except String ChatCompletionStream) (stdin : List String) (n : Nat) :
    (∃ rest, (run cfg client n (initState stdin)).state.messages = seed :: rest ∧
      userLed false rest = true) ∧
    ((∀ k, k < (run cfg client n (initState stdin)).state.calls → ∃ st, client k = .ok st) →
      (run cfg client n (initState stdin)).isPanicked = false →
      alternating (run cfg client n (initState stdin)).state.messages.tail = true) :=
  run_inv cfg client n (initState stdin) (initState_inv client stdin)

/-- Witness of C2: two exchanges whose streams were created. -/
theorem transcript_invariant_witness :
    alternating (run ⟨"llama-3.1-8b-instant", false⟩ (fun _ => .ok ⟨[⟨[⟨⟨"ok"⟩⟩]⟩], .EOF⟩)
      3 (initState ["hi", "", "there"])).state.messages.tail = true :=
  (transcript_invariant ⟨"llama-3.1-8b-instant", false⟩
    (fun _ => .ok ⟨[⟨[⟨⟨"ok"⟩⟩]⟩], .EOF⟩) ["hi", "", "there"] 3).2
    (fun _ _ => ⟨_, rfl⟩) (by decide)

theorem alternating_length_even (l : List ChatCompletionMessage)
    (h : alternating l = true) : l.length % 2 = 0 := by
  induction l using alternating.induct with
  | case1 => rfl
  | case2 m => simp [alternating] at h
  | case3 u a rest ih =>
    simp only [alternating, Bool.and_eq_true] at h
    have := ih h.2
    simp only [List.length_cons]
    omega

/-- C3 as stated fails: after a failed stream creation in the first exchange the
transcript holds the seed and the user turn, two turns, which is not an odd number. -/
theorem failed_creation_length_not_odd :
    ¬ ((iteration ⟨"llama-3.1-8b-instant", false⟩ (fun _ => .error "connection refused")
        (initState ["hi"])).state.messages.length % 2 = 1) := by
  decide

/-- C3, amended: when the transcript is the seed followed by complete user/assistant
pairs and the stream creation of an exchange fails, the iteration goes on with the
transcript extended by the user turn of the failed exchange alone, so that its length is
even and it ends in that user turn; the next exchange whose stream is created and whose
responses all carry a choice appends exactly its own user/assistant pair on top of it. -/
theorem failed_creation_leaves_user_turn (cfg : Config)
    (client : Nat → Except String ChatCompletionStream) (s : State) (e : String)
    (hpaired : ∃ pairs, s.messages = seed :: pairs ∧ alternating pairs = true)
    (h1 : scanText s.scanner ≠ "exit") (h2 : scanText s.scanner ≠ "clear")
    (h3 : effectiveText s.scanner ≠ "")
    (hfail : client s.calls = .error e) :
    ∃ s1, iteration cfg client s = .running s1 ∧
      s1.messages = s.messages ++ [{ Role := "user", Content := effectiveText s.scanner }] ∧
      s1.messages.length % 2 = 0 ∧
      s1.messages.getLast? = some { Role := "user", Content := effectiveText s.scanner } ∧
      s1.calls = s.calls + 1 ∧
      ∀ st, client s1.calls = .ok st → WellFormed st.chunks →
        scanText s1.scanner ≠ "exit" → scanText s1.scanner ≠ "clear" →
        effectiveText s1.scanner ≠ "" →
        ∃ s2, iteration cfg client s1 = .running s2 ∧
          s2.messages = s1.messages ++
            [{ Role := "user", Content := effectiveText s1.scanner },
             { Role := "assistant", Content := concatOnto "" (fragmentsOf st.chunks) }] := by
  obtain ⟨pairs, hm, halt⟩ := hpaired
  obtain ⟨out, ho⟩ := iteration_exchange cfg client s h1 h2 h3
  obtain ⟨out', ho'⟩ :=
    exchange_error cfg client s (afterText s.scanner) out (effectiveText s.scanner) e hfail
  rw [ho'] at ho
  refine ⟨_, ho, rfl, ?_, ?_, rfl, ?_⟩
  · have := alternating_length_even pairs halt
    simp only [hm, List.length_append, List.length_cons, List.length_nil]
    omega
  · simp
  · intro st hst hwf g1 g2 g3
    obtain ⟨o2, ho2⟩ := iteration_exchange cfg client _ g1 g2 g3
    obtain ⟨o2', ho2'⟩ := exchange_ok cfg client _ _ o2 _ st hst hwf
    rw [ho2'] at ho2
    exact ⟨_, ho2, rfl⟩

/-- Witness of C3: the first creation fails on the line `hi`; the transcript then holds
the seed and the user turn `hi`. -/
theorem failed_creation_leaves_user_turn_witness :
    ∃ s1, iteration ⟨"llama-3.1-8b-instant", false⟩
        (fun k => if k = 0 then .error "connection refused" else .ok ⟨[⟨[⟨⟨"ok"⟩⟩]⟩], .EOF⟩)
        (initState ["hi", "again"]) = .running s1 ∧
      s1.messages = [seed] ++ [{ Role := "user", Content := "hi" }] ∧
      s1.messages.length % 2 = 0 :=
  match failed_creation_leaves_user_turn ⟨"llama-3.1-8b-instant", false⟩
    (fun k => if k = 0 then .error "connection refused" else .ok ⟨[⟨[⟨⟨"ok"⟩⟩]⟩], .EOF⟩)
    (initState ["hi", "again"]) "connection refused"
    ⟨[], rfl, rfl⟩ (by decide) (by decide) (by decide) rfl with
  | ⟨s1, hrun, hmsg, hlen, _⟩ => ⟨s1, hrun, hmsg, hlen⟩

end ChatCli
